import Mathlib

/-!
# Deiverse API server (`src/api/server.js`)

A shallow embedding of the Express handlers of `src/api/server.js` and of the two
regular expressions they use, followed by theorems about them.

Conventions of the embedding.

* Request bodies and the contents of `connections.json` are JavaScript values as
  `JSON.parse` produces them (`JSVal`).  Numbers are the integers of magnitude at most
  `2^53` (`SafeInt`): a double holds each of them exactly and `Number::toString` prints all
  their digits.  The ids the service writes are readings of `Date.now()`, which are such
  integers (`TimeValue`).
* `JSON.stringify` followed by `JSON.parse` is the identity on the stored document, so
  the state of the file is the value `getConnections` would parse from it.
* The clock (`Date.now()`, `new Date()`) and the outcome of `fs.writeFileSync` are
  inputs of a request (`PostEnv`).  A write that throws leaves the file as it was.
* Requests run one after the other, each to completion.
* An exception that leaves a handler is the response `Response.uncaught`: the default
  error handler of Express answers with an HTML page, under the error status already set
  on the response when there is one, under 500 otherwise.
* Strings are sequences of characters; the regular expressions of the source only name
  ASCII characters, and without the `u` flag a non-ASCII character never matches one of
  them, also under the `i` flag.
-/

namespace Deiverse

/-! ## Regular expressions (the fragment used in `server.js`) -/

/-- An item of a character class `[...]`. -/
inductive ClassItem where
  | chr (c : Char)
  | word
  deriving Repr, DecidableEq

/-- The regular-expression syntax used by the two patterns of `server.js`. -/
inductive Regex where
  | empty
  | chr (c : Char)
  | seq (a b : Regex)
  | alt (a b : Regex)
  | opt (a : Regex)
  | plusClass (items : List ClassItem)
  deriving Repr

/-- Case folding of the `i` flag (`ic = true`); on the ASCII pattern characters of the
source, two characters are the same under the flag iff their ASCII lower-casings agree. -/
def fold (ic : Bool) (c : Char) : Char :=
  if ic then c.toLower else c

/-- Does input character `x` match pattern character `c`? -/
def eqChar (ic : Bool) (c x : Char) : Bool :=
  fold ic c == fold ic x

/-- The class `\w`: `[A-Za-z0-9_]`. -/
def isWordChar (x : Char) : Bool :=
  x.isAlphanum || x == '_'

/-- Does input character `x` match a class item? -/
def ClassItem.accepts (ic : Bool) : ClassItem → Char → Bool
  | .chr c, x => eqChar ic c x
  | .word, x => isWordChar x

/-- Does input character `x` belong to the class `[items]`? -/
def classMem (ic : Bool) (items : List ClassItem) (x : Char) : Bool :=
  items.any (fun i => i.accepts ic x)

/-- Greedy `[...]+`: the remainders left after one or more class characters, the longest
run first (the order in which a backtracking matcher tries them). -/
def many1 (p : Char → Bool) : List Char → List (List Char)
  | [] => []
  | x :: t => if p x then many1 p t ++ [t] else []

/-- Backtracking matcher: all the remainders of the input after a match of the pattern
at the start of the input, in the order of priority of ECMAScript (left alternative
first, greedy quantifiers). -/
def Regex.run (ic : Bool) : Regex → List Char → List (List Char)
  | .empty, s => [s]
  | .chr _, [] => []
  | .chr c, x :: t => if eqChar ic c x then [t] else []
  | .seq a b, s => (a.run ic s).flatMap (b.run ic)
  | .alt a b, s => a.run ic s ++ b.run ic s
  | .opt a, s => a.run ic s ++ [s]
  | .plusClass items, s => many1 (classMem ic items) s

/-- A literal string as a pattern. -/
def Regex.lits : List Char → Regex
  | [] => .empty
  | c :: cs => .seq (.chr c) (Regex.lits cs)

/-- A pattern with its flags: `anchored` is a leading `^`, `ignoreCase` the `i` flag. -/
structure Pattern where
  anchored : Bool
  ignoreCase : Bool
  body : Regex

/-- The text matched at the start of `s`, if the body matches there. -/
def Pattern.matchHere (p : Pattern) (s : List Char) : Option (List Char) :=
  match p.body.run p.ignoreCase s with
  | [] => none
  | r :: _ => some (s.take (s.length - r.length))

/-- Scan for the leftmost match starting at successive positions of the input. -/
def Pattern.scan (p : Pattern) : List Char → Option (List Char)
  | [] => p.matchHere []
  | x :: t =>
    match p.matchHere (x :: t) with
    | some m => some m
    | none => p.scan t

/-- The matched text `m[0]` of `RegExp.prototype.exec` (no `g` flag): the leftmost match,
which an anchored pattern only looks for at position 0. -/
def Pattern.exec (p : Pattern) (s : List Char) : Option (List Char) :=
  if p.anchored then p.matchHere s else p.scan s

/-- The result of `RegExp.prototype.test`. -/
def Pattern.test (p : Pattern) (s : List Char) : Bool :=
  (p.exec s).isSome

/-- The class `[\w\-\.]`. -/
def segClass : List ClassItem := [.word, .chr '-', .chr '.']

/-- The alternation `github|gitlab|bitbucket`. -/
def providerAlt : Regex :=
  .alt (Regex.lits "github".toList) (.alt (Regex.lits "gitlab".toList) (Regex.lits "bitbucket".toList))

/-- Line 57: `/^https?:\/\/(github|gitlab|bitbucket)\.com\/[\w\-\.]+\/[\w\-\.]+/i`. -/
def urlPattern : Pattern where
  anchored := true
  ignoreCase := true
  body :=
    .seq (Regex.lits "http".toList) (.seq (.opt (.chr 's')) (.seq (Regex.lits "://".toList)
      (.seq providerAlt (.seq (Regex.lits ".com/".toList)
        (.seq (.plusClass segClass) (.seq (.chr '/') (.plusClass segClass)))))))

/-- Line 65: `/github|gitlab|bitbucket/i`. -/
def providerPattern : Pattern where
  anchored := false
  ignoreCase := true
  body := providerAlt

/-! ## JavaScript values -/

/-- An integer of magnitude at most `2^53`: a double holds it exactly, and `Number::toString`
prints all its digits. -/
structure SafeInt where
  val : Int
  safe : val.natAbs ≤ 9007199254740992

/-- A value as `JSON.parse` produces it.  An absent property (`undefined`) is `none` in
an `Option JSVal`. -/
inductive JSVal where
  | null
  | bool (b : Bool)
  | num (n : SafeInt)
  | str (s : String)
  | arr (items : List JSVal)
  | obj (props : List (String × JSVal))

/-- Own property of an object literal, by key. -/
def lookupProp (props : List (String × JSVal)) (k : String) : Option JSVal :=
  (props.find? (fun kv => kv.1 == k)).map (fun kv => kv.2)

/-- Property definition of an object literal `{ ...props, k: v }`: an existing key keeps
its place and takes the new value, a new key goes last. -/
def setProp : List (String × JSVal) → String → JSVal → List (String × JSVal)
  | [], k, v => [(k, v)]
  | (k0, v0) :: rest, k, v => if k0 == k then (k0, v) :: rest else (k0, v0) :: setProp rest k v

/-- Reading the property `k` (one of `provider`, `repo_url`, `branch`, `id`) of a value:
`none` is the `TypeError` of reading a property of `null` or `undefined`, `some none` is
`undefined`.  Only objects parsed from JSON carry such a property. -/
def getProp (k : String) : Option JSVal → Option (Option JSVal)
  | none => none
  | some .null => none
  | some (.obj props) => some (lookupProp props k)
  | some _ => some none

/-- ECMAScript `ToBoolean`. -/
def truthy : Option JSVal → Bool
  | none => false
  | some .null => false
  | some (.bool b) => b
  | some (.num n) => n.val != 0
  | some (.str s) => s != ""
  | some (.arr _) => true
  | some (.obj _) => true

/-- One step of `join`: the element's text, then the separator and the rest when there are
further elements. -/
def joinStep (first : Option String) (rest : List JSVal) (restText : Option String) : Option String :=
  match rest with
  | [] => first
  | _ :: _ =>
    match first, restText with
    | some a, some b => some (a ++ "," ++ b)
    | _, _ => none

mutual
/-- ECMAScript `ToString`; `none` is a thrown `TypeError` (an object parsed from JSON whose
own `toString` is not callable). -/
def jsToString : JSVal → Option String
  | .null => some "null"
  | .bool b => some (if b then "true" else "false")
  | .num n => some (toString n.val)
  | .str s => some s
  | .arr items => jsJoin items
  | .obj props =>
    match lookupProp props "toString" with
    | some _ => none
    | none => some "[object Object]"
/-- The method `Array.prototype.join` with the separator `,` (the `ToString` of an array);
an element `null` gives the empty string. -/
def jsJoin : List JSVal → Option String
  | [] => some ""
  | .null :: rest => joinStep (some "") rest (jsJoin rest)
  | .bool b :: rest => joinStep (jsToString (.bool b)) rest (jsJoin rest)
  | .num n :: rest => joinStep (jsToString (.num n)) rest (jsJoin rest)
  | .str s :: rest => joinStep (jsToString (.str s)) rest (jsJoin rest)
  | .arr items :: rest => joinStep (jsToString (.arr items)) rest (jsJoin rest)
  | .obj props :: rest => joinStep (jsToString (.obj props)) rest (jsJoin rest)
end

/-- ECMAScript `ToString` of a possibly `undefined` value. -/
def toStr : Option JSVal → Option String
  | none => some "undefined"
  | some v => jsToString v

/-- Strict equality `v === s` with a string `s`. -/
def strictEqStr : Option JSVal → String → Bool
  | some (.str t), s => t == s
  | _, _ => false

/-- A Number as `parseInt` returns it: `NaN`, an integer, or an infinity. -/
inductive JSNumber where
  | nan
  | finite (n : Int)
  | infinity (negative : Bool)

/-- Strict equality `v === n` of a value with a Number that `parseInt` returned. -/
def strictEqNum : Option JSVal → JSNumber → Bool
  | some (.num m), .finite n => m.val == n
  | _, _ => false

/-- The method `String.prototype.toLowerCase`, on the ASCII text it is applied to in the source
(the text matched by `/github|gitlab|bitbucket/i`). -/
def toLowerCase (s : List Char) : String :=
  String.mk (s.map Char.toLower)

/-! ## The clock -/

/-- A reading of the clock: a time value, in milliseconds after the epoch.  ECMAScript time
values end `8.64e15` ms after the epoch; the clock is taken not to stand before the epoch. -/
structure TimeValue where
  ms : Nat
  inRange : ms ≤ 8640000000000000

/-- A time value as a Number. -/
def TimeValue.toSafeInt (t : TimeValue) : SafeInt where
  val := (t.ms : Int)
  safe := by
    have h := t.inRange
    simp only [Int.natAbs_ofNat]
    omega

/-- A number in decimal, padded with zeros on the left to at least `width` digits. -/
def pad (width n : Nat) : String :=
  let ds := Nat.toDigits 10 n
  String.mk (List.replicate (width - ds.length) '0' ++ ds)

/-- The method `Date.prototype.toISOString` of the date `ms` milliseconds after the epoch
(proleptic Gregorian calendar, UTC): `YYYY-MM-DDTHH:mm:ss.sssZ`, with the expanded year
`+YYYYYY` after the year 9999. -/
def toISOString (ms : Nat) : String :=
  let days := ms / 86400000
  let inDay := ms % 86400000
  let z := days + 719468
  let era := z / 146097
  let doe := z % 146097
  let yoe := (doe + doe / 36524 - doe / 1460 - doe / 146096) / 365
  let doy := doe + yoe / 100 - (365 * yoe + yoe / 4)
  let mp := (5 * doy + 2) / 153
  let day := doy - (153 * mp + 2) / 5 + 1
  let month := if mp < 10 then mp + 3 else mp - 9
  let year := yoe + era * 400 + (if month ≤ 2 then 1 else 0)
  let yearText := if year ≤ 9999 then pad 4 year else "+" ++ pad 6 year
  yearText ++ "-" ++ pad 2 month ++ "-" ++ pad 2 day ++ "T" ++ pad 2 (inDay / 3600000) ++ ":" ++
    pad 2 (inDay / 60000 % 60) ++ ":" ++ pad 2 (inDay / 1000 % 60) ++ "." ++ pad 3 (inDay % 1000) ++ "Z"

/-! ## `parseInt` -/

/-- White space skipped by `parseInt` (ECMAScript `StrWhiteSpaceChar`). -/
def isStrWhiteSpace (c : Char) : Bool :=
  let n := c.toNat
  (9 ≤ n && n ≤ 13) || n == 0x20 || n == 0xA0 || n == 0x1680 || (0x2000 ≤ n && n ≤ 0x200A) ||
    n == 0x2028 || n == 0x2029 || n == 0x202F || n == 0x205F || n == 0x3000 || n == 0xFEFF

/-- The value of a digit in the given radix (10 or 16), if it is one. -/
def digitValue (radix : Nat) (c : Char) : Option Nat :=
  let n := c.toNat
  if 48 ≤ n ∧ n ≤ 57 then some (n - 48)
  else if radix = 16 ∧ 97 ≤ n ∧ n ≤ 102 then some (n - 87)
  else if radix = 16 ∧ 65 ≤ n ∧ n ≤ 70 then some (n - 55)
  else none

/-- Read the longest prefix of digits: the number read so far and whether a digit was seen. -/
def readDigits (radix : Nat) : List Char → Nat → Bool → Option Nat
  | [], acc, seen => if seen then some acc else none
  | c :: cs, acc, seen =>
    match digitValue radix c with
    | some d => readDigits radix cs (acc * radix + d) true
    | none => if seen then some acc else none

/-- The sign in front of the digits, and the text after it. -/
def splitSign : List Char → Bool × List Char
  | '-' :: t => (true, t)
  | '+' :: t => (false, t)
  | cs => (false, cs)

/-- The digits after the sign: hexadecimal after `0x` or `0X`, decimal otherwise. -/
def readMagnitude : List Char → Option Nat
  | '0' :: 'x' :: t => readDigits 16 t 0 false
  | '0' :: 'X' :: t => readDigits 16 t 0 false
  | t => readDigits 10 t 0 false

/-- The least `e`, counted up from the given one, with `v < 2 ^ (53 + e)`: the number of
bits that `v` has beyond 53.  The first argument bounds the search. -/
def excessBits (v : Nat) : Nat → Nat → Nat
  | 0, e => e
  | fuel + 1, e => if v < 2 ^ (53 + e) then e else excessBits v fuel (e + 1)

/-- The double nearest to the natural number `v`, ties going to the even mantissa
(ECMAScript `𝔽`): `v` itself up to `2^53`, beyond that `v` rounded to 53 significant bits;
`none` when the rounded number reaches `2^1024`, which is beyond the doubles (the result is
an infinity). -/
def roundToDouble (v : Nat) : Option Nat :=
  if v ≤ 2 ^ 53 then some v
  else
    let e := excessBits v v 0
    let q := v / 2 ^ e
    let r := v % 2 ^ e
    let half := 2 ^ (e - 1)
    let q' := if half < r ∨ (r = half ∧ q % 2 = 1) then q + 1 else q
    if e + 53 + (if q' = 2 ^ 53 then 1 else 0) ≤ 1024 then some (q' * 2 ^ e) else none

/-- The function `parseInt(s)` with no radix argument: the integer read, rounded to a double.
(For a decimal text of more than 20 significant digits ECMAScript lets an implementation
read zeros after the 20th; the exact integer is rounded here.) -/
def parseInt (s : String) : JSNumber :=
  let signed := splitSign (s.toList.dropWhile isStrWhiteSpace)
  match readMagnitude signed.2 with
  | none => .nan
  | some m =>
    match roundToDouble m with
    | none => .infinity signed.1
    | some w => .finite (if signed.1 then - (w : Int) else (w : Int))

/-! ## Persistence (lines 14 to 43) -/

/-- The file `connections.json`: absent, present but not readable as JSON (read or
`JSON.parse` throws, as for an empty file), or holding a JSON document. -/
inductive FileState where
  | absent
  | invalid
  | json (doc : JSVal)

/-- Lines 17 to 26: the parsed document, or `[]` when the file is absent or the read throws. -/
def getConnections : FileState → JSVal
  | .absent => .arr []
  | .invalid => .arr []
  | .json doc => doc

/-- Lines 28 to 43.  `now` is the reading of `Date.now()`, `date` the one of `new Date()`,
`writeOk` tells whether `fs.writeFileSync` returns (`true`) or throws.  `connections.push`
throws on anything but an array; a write that throws leaves the file as it was. -/
def saveConnection (file : FileState) (connection : List (String × JSVal))
    (now date : TimeValue) (writeOk : Bool) : Bool × FileState :=
  match getConnections file with
  | .arr connections =>
    let record := JSVal.obj
      (setProp (setProp (setProp connection "id" (.num now.toSafeInt)) "connected_at"
        (.str (toISOString date.ms))) "status" (.str "active"))
    if writeOk then (true, .json (.arr (connections ++ [record]))) else (false, file)
  | _ => (false, file)

/-! ## Routes (lines 45 to 123) -/

/-- What a request is answered: a JSON body sent by `res.json`, the page `index.html`, or,
when an exception left the handler, the HTML page of the default error handler of Express.
That page goes out under the status set on the response before the throw when it is an
error status (`res.status(400)` on line 67 runs before the template literal of line 68 is
built), and under 500 otherwise. -/
inductive Response where
  | json (status : Nat) (body : JSVal)
  | page
  | uncaught (status : Nat)

/-- The HTTP status of a response. -/
def Response.status : Response → Nat
  | .json status _ => status
  | .page => 200
  | .uncaught status => status

/-- The inputs of a POST besides the body: the four clock readings, in the order in which
the handler takes them, and the outcome of the write. -/
structure PostEnv where
  saveNow : TimeValue
  saveDate : TimeValue
  replyNow : TimeValue
  replyDate : TimeValue
  writeOk : Bool

/-- An object `{ error: msg }`. -/
def errorBody (msg : String) : JSVal :=
  .obj [("error", .str msg)]

/-- Lines 49 to 70, the validation of `provider` and `repo_url`: `none` when the request
passes, otherwise the response that ends the request. -/
def validate (provider repo_url : Option JSVal) : Option Response :=
  if !truthy provider || !truthy repo_url then
    some (.json 400 (errorBody "Provider and repository URL are required"))
  else
    match toStr repo_url with
    | none => some (.uncaught 500)
    | some text =>
      if !urlPattern.test text.toList then
        some (.json 400 (errorBody "Invalid repository URL format"))
      else
        match repo_url with
        | some (.str url) =>
          match providerPattern.exec url.toList with
          | none => some (.uncaught 500)
          | some m =>
            let urlProvider := toLowerCase m
            if !strictEqStr provider urlProvider then
              match toStr provider with
              | none => some (.uncaught 400)
              | some shown =>
                some (.json 400 (errorBody
                  ("Provider mismatch: URL contains " ++ urlProvider ++ " but you selected " ++ shown)))
            else none
        | _ => some (.uncaught 500)

/-- Lines 46 to 95, `app.post('/api/connect-repo')`. -/
def connectRepo (file : FileState) (body : Option JSVal) (env : PostEnv) : Response × FileState :=
  match getProp "provider" body, getProp "repo_url" body, getProp "branch" body with
  | some provider, some repo_url, some branchProp =>
    let branch := branchProp.getD (.str "main")
    match validate provider repo_url with
    | some response => (response, file)
    | none =>
      match provider, repo_url with
      | some p, some u =>
        let connection := [("provider", p), ("repo_url", u), ("branch", branch)]
        match saveConnection file connection env.saveNow env.saveDate env.writeOk with
        | (true, file') =>
          (.json 200 (.obj [("success", .bool true),
              ("message", .str "Repository connected successfully"),
              ("data", .obj (setProp (setProp connection "id" (.num env.replyNow.toSafeInt))
                "connected_at" (.str (toISOString env.replyDate.ms))))]),
            file')
        | (false, file') => (.json 500 (errorBody "Failed to save connection"), file')
      | _, _ => (.uncaught 500, file)
  | _, _, _ => (.uncaught 500, file)

/-- Lines 98 to 101, `app.get('/api/connections')`. -/
def listConnections (file : FileState) : Response :=
  .json 200 (.obj [("connections", getConnections file)])

/-- The method `Array.prototype.find` with the callback `c => c.id === wanted`: `none` when reading
`c.id` throws, `some none` when no element is found. -/
def findById (wanted : JSNumber) : List JSVal → Option (Option JSVal)
  | [] => some none
  | c :: rest =>
    match getProp "id" (some c) with
    | none => none
    | some idProp => if strictEqNum idProp wanted then some (some c) else findById wanted rest

/-- Lines 104 to 113, `app.get('/api/connections/:id')`. -/
def getConnection (file : FileState) (id : String) : Response :=
  match getConnections file with
  | .arr connections =>
    match findById (parseInt id) connections with
    | none => .uncaught 500
    | some found =>
      if truthy found then
        match found with
        | some connection => .json 200 (.obj [("connection", connection)])
        | none => .uncaught 500
      else .json 404 (errorBody "Connection not found")
  | _ => .uncaught 500

/-- Lines 116 to 118, `app.get('/api/health')`. -/
def health (date : TimeValue) : Response :=
  .json 200 (.obj [("status", .str "ok"), ("timestamp", .str (toISOString date.ms))])

/-- A request to one of the routes; `other` is any other GET, answered with `index.html`. -/
inductive Request where
  | connectRepo (body : Option JSVal) (env : PostEnv)
  | listConnections
  | getConnection (id : String)
  | health (date : TimeValue)
  | other

/-- One request, run to completion: the response and the file afterwards. -/
def step (file : FileState) : Request → Response × FileState
  | .connectRepo body env => connectRepo file body env
  | .listConnections => (listConnections file, file)
  | .getConnection id => (getConnection file id, file)
  | .health date => (health date, file)
  | .other => (.page, file)

/-- A sequence of requests, one after the other: the file afterwards. -/
def runAll (file : FileState) : List Request → FileState
  | [] => file
  | r :: rs => runAll (step file r).2 rs

/-- The number of POSTs answered 200 in a sequence of requests. -/
def successes (file : FileState) : List Request → Nat
  | [] => 0
  | r :: rs =>
    (match r with
      | .connectRepo _ _ => if (step file r).1.status = 200 then 1 else 0
      | _ => 0) + successes (step file r).2 rs

/-! ## The URL pattern in the words of the specification -/

/-- The host names the service knows. -/
def hosts : List String := ["github", "gitlab", "bitbucket"]

/-- The two schemes, with the separator that follows them. -/
def schemes : List String := ["http://", "https://"]

/-- A character of an owner or repository name: a word character, a dot or a hyphen. -/
def isSegChar (c : Char) : Bool :=
  isWordChar c || c == '.' || c == '-'

/-- Two texts are the same, up to ASCII case when `ic` is set. -/
def sameText (ic : Bool) (a b : List Char) : Prop :=
  a.map (fold ic) = b.map (fold ic)

/-- The text `u` starts with `http://` or `https://`, then `host`, then `.com/`, a non-empty
owner, a `/` and a non-empty repository name, owner and name being made of word characters,
dots and hyphens.  With `ic` the letters are compared up to case, without it exactly. -/
def StartsWithRepoUrl (ic : Bool) (host : String) (u : List Char) : Prop :=
  ∃ scheme ∈ schemes, ∃ s h d owner repo rest,
    u = s ++ (h ++ (d ++ (owner ++ '/' :: (repo ++ rest)))) ∧
    sameText ic s scheme.toList ∧ sameText ic h host.toList ∧ sameText ic d ".com/".toList ∧
    owner ≠ [] ∧ (∀ c ∈ owner, isSegChar c = true) ∧ repo ≠ [] ∧ (∀ c ∈ repo, isSegChar c = true)

/-- The text `u` has the shape of a repository URL of one of the three hosts. -/
def MatchesUrlPattern (ic : Bool) (u : List Char) : Prop :=
  ∃ host ∈ hosts, StartsWithRepoUrl ic host u

/-- The pattern of line 57 with the `i` flag set or not. -/
def urlPatternWith (ic : Bool) : Pattern :=
  { urlPattern with ignoreCase := ic }

/-! ## Records, replies and identifiers used in the statements -/

/-- The record that a successful POST appends to the list (lines 31 to 36). -/
def savedRecord (provider repo_url branch : JSVal) (now date : TimeValue) : JSVal :=
  .obj [("provider", provider), ("repo_url", repo_url), ("branch", branch),
    ("id", .num now.toSafeInt), ("connected_at", .str (toISOString date.ms)),
    ("status", .str "active")]

/-- The body of the response to a successful POST (lines 81 to 89). -/
def okBody (provider repo_url branch : JSVal) (now date : TimeValue) : JSVal :=
  .obj [("success", .bool true), ("message", .str "Repository connected successfully"),
    ("data", .obj [("provider", provider), ("repo_url", repo_url), ("branch", branch),
      ("id", .num now.toSafeInt), ("connected_at", .str (toISOString date.ms))])]

/-- A stored record as the data model describes it: the provider is one of the three host
names, the URL has the shape of a repository URL of that host, the status is `active`. -/
def GoodRecord (c : JSVal) : Prop :=
  ∃ props provider url, c = .obj props ∧
    lookupProp props "provider" = some (.str provider) ∧ provider ∈ hosts ∧
    lookupProp props "repo_url" = some (.str url) ∧
    StartsWithRepoUrl true provider url.toList ∧
    lookupProp props "status" = some (.str "active")

/-- The `id` of a stored record, when the record has one and it is a number. -/
def recordId : JSVal → Option Int
  | .obj props =>
    match lookupProp props "id" with
    | some (.num n) => some n.val
    | _ => none
  | _ => none

/-- Record `c` has the requested id; `NaN` and the infinities are the id of no record. -/
def HasId (wanted : JSNumber) (c : JSVal) : Prop :=
  ∃ n, wanted = .finite n ∧ recordId c = some n

/-- A decimal digit character. -/
def isDecimal (c : Char) : Prop :=
  48 ≤ c.toNat ∧ c.toNat ≤ 57

/-- A non-empty text whose first two characters, as far as there are, are decimal digits. -/
def StartsDecimal : List Char → Prop
  | [] => False
  | [c] => isDecimal c
  | c :: c' :: _ => isDecimal c ∧ isDecimal c'

/-! ## Concrete requests used to instantiate the theorems -/

/-- A valid payload without a branch. -/
def sampleProps : List (String × JSVal) :=
  [("provider", .str "github"), ("repo_url", .str "https://github.com/a/b")]

/-- Clock readings one millisecond apart between the save and the reply; the write succeeds. -/
def sampleEnv : PostEnv :=
  { saveNow := ⟨1700000000000, by decide⟩, saveDate := ⟨1700000000000, by decide⟩,
    replyNow := ⟨1700000000001, by decide⟩, replyDate := ⟨1700000000001, by decide⟩,
    writeOk := true }

/-- A record whose id is `2^53`, as a file written by hand can hold. -/
def largeIdRecord : JSVal :=
  .obj [("provider", .str "github"), ("repo_url", .str "https://github.com/a/b"),
    ("branch", .str "main"), ("id", .num ⟨9007199254740992, by decide⟩),
    ("connected_at", .str "2023-11-14T22:13:20.000Z"), ("status", .str "active")]

/-- A stored list with three records, two of which have the id 5. -/
def sampleStored : List JSVal :=
  [savedRecord (.str "github") (.str "https://github.com/a/b") (.str "main")
      ⟨7, by decide⟩ ⟨7, by decide⟩,
    savedRecord (.str "gitlab") (.str "https://gitlab.com/a/b") (.str "dev")
      ⟨5, by decide⟩ ⟨5, by decide⟩,
    savedRecord (.str "github") (.str "https://github.com/a/b") (.str "main")
      ⟨5, by decide⟩ ⟨6, by decide⟩]

/-! ## Facts about characters and the matcher -/

theorem toLower_eq_nonlower (x c : Char) (hc : c.toNat < 97 ∨ 122 < c.toNat)
    (h : x.toLower = c) : x = c := by
  unfold Char.toLower at h
  simp only at h
  split_ifs at h with hx
  · exfalso
    have h2 := congrArg Char.toNat h
    have hv : (x.toNat + 32).isValidChar := by
      left; omega
    rw [Char.ofNat, dif_pos hv] at h2
    simp only [Char.ofNatAux, Char.toNat] at h2 hc hx
    change x.val.toNat + 32 = c.val.toNat at h2
    omega
  · exact h

theorem eqChar_nonletter (ic : Bool) (c x : Char) (h1 : c.toLower = c)
    (h2 : c.toNat < 97 ∨ 122 < c.toNat) : eqChar ic c x = true ↔ x = c := by
  unfold eqChar fold
  cases ic
  · simp only [Bool.false_eq_true, if_false, beq_iff_eq]
    exact eq_comm
  · simp only [if_true, beq_iff_eq, h1]
    constructor
    · intro h
      exact toLower_eq_nonlower x c h2 h.symm
    · rintro rfl
      exact h1.symm

theorem classMem_segClass (ic : Bool) (x : Char) : classMem ic segClass x = isSegChar x := by
  have hd := eqChar_nonletter ic '.' x (by decide) (by decide)
  have hh := eqChar_nonletter ic '-' x (by decide) (by decide)
  rw [Bool.eq_iff_iff]
  simp only [classMem, segClass, List.any_cons, List.any_nil, ClassItem.accepts, isSegChar,
    Bool.or_false, Bool.or_eq_true, hd, hh, beq_iff_eq]
  tauto

theorem mem_many1 (p : Char → Bool) (s r : List Char) :
    r ∈ many1 p s ↔ ∃ w, w ≠ [] ∧ (∀ c ∈ w, p c = true) ∧ s = w ++ r := by
  induction s with
  | nil =>
    simp only [many1, List.not_mem_nil, false_iff]
    rintro ⟨w, hw, -, h⟩
    cases w with
    | nil => exact hw rfl
    | cons a t => simp at h
  | cons x t ih =>
    simp only [many1]
    split_ifs with hx
    · rw [List.mem_append, ih, List.mem_singleton]
      constructor
      · rintro (⟨w, -, hall, rfl⟩ | rfl)
        · refine ⟨x :: w, by simp, ?_, by simp⟩
          intro c hc
          rcases List.mem_cons.mp hc with rfl | hc
          · exact hx
          · exact hall c hc
        · exact ⟨[x], by simp, by simpa using hx, by simp⟩
      · rintro ⟨w, hw, hall, h⟩
        cases w with
        | nil => exact absurd rfl hw
        | cons a w' =>
          simp only [List.cons_append, List.cons.injEq] at h
          obtain ⟨rfl, rfl⟩ := h
          by_cases hw' : w' = []
          · right; simp [hw']
          · left
            exact ⟨w', hw', fun c hc => hall c (List.mem_cons_of_mem _ hc), rfl⟩
    · simp only [List.not_mem_nil, false_iff]
      rintro ⟨w, hw, hall, h⟩
      cases w with
      | nil => exact hw rfl
      | cons a w' =>
        simp only [List.cons_append, List.cons.injEq] at h
        obtain ⟨rfl, -⟩ := h
        exact hx (hall _ (List.mem_cons_self _ _))

/-- A literal is deterministic: it consumes as many characters as it has, when they are the
same text. -/
theorem run_lits (ic : Bool) (l s : List Char) :
    (Regex.lits l).run ic s =
      if (s.take l.length).map (fold ic) = l.map (fold ic) then [s.drop l.length] else [] := by
  induction l generalizing s with
  | nil => simp [Regex.lits, Regex.run]
  | cons c cs ih =>
    cases s with
    | nil => simp [Regex.lits, Regex.run]
    | cons x t =>
      simp only [Regex.lits, Regex.run, List.length_cons, List.take_succ_cons, List.map_cons,
        List.drop_succ_cons, List.cons.injEq]
      by_cases hx : eqChar ic c x = true
      · have hx' : fold ic x = fold ic c := by
          simp only [eqChar, beq_iff_eq] at hx
          exact hx.symm
        simp [hx, hx', ih]
      · have hx' : ¬ fold ic x = fold ic c := by
          simp only [eqChar, beq_iff_eq] at hx
          exact fun h => hx h.symm
        simp [hx, hx']

theorem run_lits_append (ic : Bool) (l pre r : List Char) (h : sameText ic pre l) :
    (Regex.lits l).run ic (pre ++ r) = [r] := by
  have hlen : pre.length = l.length := by
    have := congrArg List.length h
    simpa using this
  rw [run_lits, ← hlen, List.take_left, List.drop_left]
  exact if_pos h

theorem mem_run_lits (ic : Bool) (l s r : List Char) :
    r ∈ (Regex.lits l).run ic s ↔ ∃ pre, s = pre ++ r ∧ sameText ic pre l := by
  constructor
  · intro h
    rw [run_lits] at h
    split_ifs at h with hs
    · rw [List.mem_singleton] at h
      subst h
      exact ⟨s.take l.length, (List.take_append_drop _ _).symm, hs⟩
    · simp at h
  · rintro ⟨pre, rfl, h⟩
    rw [run_lits_append ic l pre r h]
    exact List.mem_singleton_self r

theorem mem_run_chr (ic : Bool) (c : Char) (s r : List Char) :
    r ∈ (Regex.chr c).run ic s ↔ ∃ x, s = x :: r ∧ eqChar ic c x = true := by
  cases s with
  | nil => simp [Regex.run]
  | cons x t =>
    simp only [Regex.run]
    split_ifs with hx
    · simp only [List.mem_singleton, List.cons.injEq]
      constructor
      · rintro rfl
        exact ⟨x, ⟨rfl, rfl⟩, hx⟩
      · rintro ⟨y, ⟨-, h⟩, -⟩
        exact h.symm
    · simp only [List.not_mem_nil, List.cons.injEq, false_iff]
      rintro ⟨y, ⟨rfl, -⟩, hy⟩
      exact hx hy

theorem mem_run_seq (ic : Bool) (a b : Regex) (s r : List Char) :
    r ∈ (Regex.seq a b).run ic s ↔ ∃ m, m ∈ a.run ic s ∧ r ∈ b.run ic m := by
  simp only [Regex.run, List.mem_flatMap]

theorem run_alt (ic : Bool) (a b : Regex) (s : List Char) :
    (Regex.alt a b).run ic s = a.run ic s ++ b.run ic s := by
  simp only [Regex.run]

theorem mem_run_alt (ic : Bool) (a b : Regex) (s r : List Char) :
    r ∈ (Regex.alt a b).run ic s ↔ r ∈ a.run ic s ∨ r ∈ b.run ic s := by
  simp only [Regex.run, List.mem_append]

theorem mem_run_opt (ic : Bool) (a : Regex) (s r : List Char) :
    r ∈ (Regex.opt a).run ic s ↔ r ∈ a.run ic s ∨ r = s := by
  simp only [Regex.run, List.mem_append, List.mem_singleton]

theorem mem_run_providerAlt (ic : Bool) (s r : List Char) :
    r ∈ providerAlt.run ic s ↔ ∃ host ∈ hosts, ∃ h, s = h ++ r ∧ sameText ic h host.toList := by
  unfold providerAlt
  simp only [mem_run_alt, mem_run_lits, hosts, List.mem_cons,
    List.mem_singleton, List.not_mem_nil, or_false, exists_eq_or_imp, exists_eq_left]

theorem mem_run_segment (ic : Bool) (s r : List Char) :
    r ∈ (Regex.plusClass segClass).run ic s ↔
      ∃ w, w ≠ [] ∧ (∀ c ∈ w, isSegChar c = true) ∧ s = w ++ r := by
  simp only [Regex.run, mem_many1, classMem_segClass]

theorem matchHere_isSome (p : Pattern) (u : List Char) :
    (p.matchHere u).isSome = true ↔ ∃ r, r ∈ p.body.run p.ignoreCase u := by
  unfold Pattern.matchHere
  cases h : p.body.run p.ignoreCase u with
  | nil => simp
  | cons r t => simp

theorem test_urlPattern_iff_run (ic : Bool) (u : List Char) :
    (urlPatternWith ic).test u = true ↔ ∃ r, r ∈ urlPattern.body.run ic u := by
  have h := matchHere_isSome (urlPatternWith ic) u
  exact h

theorem mem_run_urlBody (ic : Bool) (u r : List Char) :
    r ∈ urlPattern.body.run ic u ↔
      ∃ m1, (∃ p1, u = p1 ++ m1 ∧ sameText ic p1 "http".toList) ∧
      ∃ m2, ((∃ x, m1 = x :: m2 ∧ eqChar ic 's' x = true) ∨ m2 = m1) ∧
      ∃ m3, (∃ p3, m2 = p3 ++ m3 ∧ sameText ic p3 "://".toList) ∧
      ∃ m4, (∃ host ∈ hosts, ∃ h, m3 = h ++ m4 ∧ sameText ic h host.toList) ∧
      ∃ m5, (∃ d, m4 = d ++ m5 ∧ sameText ic d ".com/".toList) ∧
      ∃ m6, (∃ w, w ≠ [] ∧ (∀ c ∈ w, isSegChar c = true) ∧ m5 = w ++ m6) ∧
      ∃ m7, (∃ x, m6 = x :: m7 ∧ eqChar ic '/' x = true) ∧
        ∃ w, w ≠ [] ∧ (∀ c ∈ w, isSegChar c = true) ∧ m7 = w ++ r := by
  show r ∈ Regex.run ic (.seq (Regex.lits "http".toList) (.seq (.opt (.chr 's'))
    (.seq (Regex.lits "://".toList) (.seq providerAlt (.seq (Regex.lits ".com/".toList)
      (.seq (.plusClass segClass) (.seq (.chr '/') (.plusClass segClass)))))))) u ↔ _
  simp only [mem_run_seq, mem_run_lits, mem_run_opt, mem_run_chr, mem_run_providerAlt,
    mem_run_segment]

theorem shape_of_run_url (ic : Bool) (u r : List Char) (h : r ∈ urlPattern.body.run ic u) :
    MatchesUrlPattern ic u := by
  rw [mem_run_urlBody] at h
  obtain ⟨m1, ⟨p1, rfl, hp1⟩, m2, hopt, m3, ⟨p3, rfl, hp3⟩, m4, ⟨host, hhost, h, rfl, hh⟩,
    m5, ⟨d, rfl, hd⟩, m6, ⟨owner, hown, hownall, rfl⟩, m7, ⟨x, rfl, hx⟩,
    repo, hrepo, hrepoall, rfl⟩ := h
  have hx' : x = '/' := (eqChar_nonletter ic '/' x (by decide) (by decide)).mp hx
  subst hx'
  refine ⟨host, hhost, ?_⟩
  rcases hopt with ⟨y, rfl, hy⟩ | rfl
  · refine ⟨"https://", by simp [schemes], p1 ++ y :: p3, h, d, owner, repo, r, by simp, ?_,
      hh, hd, hown, hownall, hrepo, hrepoall⟩
    simp only [sameText, List.map_append, List.map_cons] at hp1 hp3 ⊢
    simp only [eqChar, beq_iff_eq] at hy
    rw [hp1, hp3, ← hy]
    rfl
  · refine ⟨"http://", by simp [schemes], p1 ++ p3, h, d, owner, repo, r, by simp, ?_,
      hh, hd, hown, hownall, hrepo, hrepoall⟩
    simp only [sameText, List.map_append] at hp1 hp3 ⊢
    rw [hp1, hp3]
    rfl

theorem sameText_append (ic : Bool) (s a b : List Char) (h : sameText ic s (a ++ b)) :
    ∃ s1 s2, s = s1 ++ s2 ∧ sameText ic s1 a ∧ sameText ic s2 b := by
  unfold sameText at h
  refine ⟨s.take a.length, s.drop a.length, (List.take_append_drop _ _).symm, ?_, ?_⟩
  · show (s.take a.length).map (fold ic) = _
    rw [List.map_take, h, List.map_append, List.take_left']
    simp
  · show (s.drop a.length).map (fold ic) = _
    rw [List.map_drop, h, List.map_append, List.drop_left']
    simp

theorem sameText_cons (ic : Bool) (s b : List Char) (c : Char) (h : sameText ic s (c :: b)) :
    ∃ x t, s = x :: t ∧ eqChar ic c x = true ∧ sameText ic t b := by
  cases s with
  | nil => simp [sameText] at h
  | cons x t =>
    simp only [sameText, List.map_cons, List.cons.injEq] at h
    exact ⟨x, t, rfl, by simp [eqChar, h.1], h.2⟩

theorem run_url_of_shape (ic : Bool) (host : String) (u : List Char) (hhost : host ∈ hosts)
    (hu : StartsWithRepoUrl ic host u) : ∃ r, r ∈ urlPattern.body.run ic u := by
  obtain ⟨scheme, hscheme, s, h, d, owner, repo, rest, rfl, hs, hh, hd, hown, hownall, hrepo,
    hrepoall⟩ := hu
  refine ⟨rest, ?_⟩
  rw [mem_run_urlBody]
  simp only [schemes, List.mem_cons, List.mem_singleton, List.not_mem_nil, or_false] at hscheme
  have hslash : eqChar ic '/' '/' = true := by simp [eqChar]
  rcases hscheme with rfl | rfl
  · have hs2 : sameText ic s ("http".toList ++ "://".toList) := hs
    obtain ⟨s1, s2, rfl, h1, h2⟩ := sameText_append ic s _ _ hs2
    exact ⟨s2 ++ (h ++ (d ++ (owner ++ '/' :: (repo ++ rest)))),
      ⟨s1, by simp [List.append_assoc], h1⟩, _, Or.inr rfl, _,
      ⟨s2, rfl, h2⟩, _, ⟨host, hhost, h, rfl, hh⟩, _, ⟨d, rfl, hd⟩, _,
      ⟨owner, hown, hownall, rfl⟩, _, ⟨'/', rfl, hslash⟩, repo, hrepo, hrepoall, rfl⟩
  · have hs2 : sameText ic s ("http".toList ++ 's' :: "://".toList) := hs
    obtain ⟨s1, s2, rfl, h1, h2⟩ := sameText_append ic s _ _ hs2
    obtain ⟨x, s3, rfl, hx, h3⟩ := sameText_cons ic s2 _ _ h2
    exact ⟨x :: s3 ++ (h ++ (d ++ (owner ++ '/' :: (repo ++ rest)))),
      ⟨s1, by simp [List.append_assoc], h1⟩, _, Or.inl ⟨x, rfl, hx⟩, _,
      ⟨s3, rfl, h3⟩, _, ⟨host, hhost, h, rfl, hh⟩, _, ⟨d, rfl, hd⟩, _,
      ⟨owner, hown, hownall, rfl⟩, _, ⟨'/', rfl, hslash⟩, repo, hrepo, hrepoall, rfl⟩

/-- The test of line 58 holds exactly for the texts that have the shape of a repository URL. -/
theorem test_urlPattern_iff (ic : Bool) (u : List Char) :
    (urlPatternWith ic).test u = true ↔ MatchesUrlPattern ic u := by
  rw [test_urlPattern_iff_run]
  constructor
  · rintro ⟨r, hr⟩
    exact shape_of_run_url ic u r hr
  · rintro ⟨host, hhost, hu⟩
    exact run_url_of_shape ic host u hhost hu

/-! ### The provider found in the URL (line 65) -/

theorem fold_true (c : Char) : fold true c = c.toLower := by
  simp [fold]

theorem scan_of_matchHere (p : Pattern) (s m : List Char) (h : p.matchHere s = some m) :
    p.scan s = some m := by
  cases s with
  | nil => simpa [Pattern.scan] using h
  | cons x t => simp [Pattern.scan, h]

theorem scan_skip (p : Pattern) (pre t : List Char)
    (h : ∀ x ∈ pre, ∀ t', p.matchHere (x :: t') = none) :
    p.scan (pre ++ t) = p.scan t := by
  induction pre with
  | nil => rfl
  | cons x pre ih =>
    have hx := h x (List.mem_cons_self _ _) (pre ++ t)
    show p.scan (x :: (pre ++ t)) = p.scan t
    rw [Pattern.scan, hx]
    exact ih (fun y hy => h y (List.mem_cons_of_mem _ hy))

theorem matchHere_provider_none (x : Char) (t : List Char) (hg : x.toLower ≠ 'g')
    (hb : x.toLower ≠ 'b') : providerPattern.matchHere (x :: t) = none := by
  have h1 : eqChar true 'g' x = false := by
    simp only [eqChar, fold_true, beq_eq_false_iff_ne, ne_eq]
    exact fun h => hg h.symm
  have h2 : eqChar true 'b' x = false := by
    simp only [eqChar, fold_true, beq_eq_false_iff_ne, ne_eq]
    exact fun h => hb h.symm
  simp [Pattern.matchHere, providerPattern, providerAlt, Regex.lits, Regex.run, h1, h2]

theorem matchHere_provider_host (host : String) (h r : List Char) (hhost : host ∈ hosts)
    (hh : sameText true h host.toList) : providerPattern.matchHere (h ++ r) = some h := by
  have hrun : ∃ t, providerAlt.run true (h ++ r) = r :: t := by
    simp only [hosts, List.mem_cons, List.mem_singleton, List.not_mem_nil, or_false] at hhost
    rcases hhost with rfl | rfl | rfl
    · exact ⟨_, by rw [providerAlt, run_alt, run_lits_append true _ h r hh]; rfl⟩
    · have hlen : h.length = 6 := by
        have := congrArg List.length hh
        simpa using this
      have h0 : (Regex.lits "github".toList).run true (h ++ r) = [] := by
        rw [run_lits]
        have : ("github".toList).length = h.length := by rw [hlen]; rfl
        rw [this, List.take_left, hh, if_neg (by decide)]
      exact ⟨_, by rw [providerAlt, run_alt, run_alt, h0, run_lits_append true _ h r hh]; rfl⟩
    · have hlen : h.length = 9 := by
        have := congrArg List.length hh
        simpa using this
      have hcons := hh
      have h0 : (Regex.lits "github".toList).run true (h ++ r) = [] := by
        obtain ⟨x, t, rfl, hx, -⟩ := sameText_cons true h _ 'b' hh
        have hx' : eqChar true 'g' x = false := by
          simp only [eqChar, fold_true, beq_iff_eq] at hx
          simp only [eqChar, fold_true, ← hx, beq_eq_false_iff_ne, ne_eq]
          decide
        simp [Regex.lits, Regex.run, hx']
      have h1 : (Regex.lits "gitlab".toList).run true (h ++ r) = [] := by
        obtain ⟨x, t, rfl, hx, -⟩ := sameText_cons true h _ 'b' hh
        have hx' : eqChar true 'g' x = false := by
          simp only [eqChar, fold_true, beq_iff_eq] at hx
          simp only [eqChar, fold_true, ← hx, beq_eq_false_iff_ne, ne_eq]
          decide
        simp [Regex.lits, Regex.run, hx']
      exact ⟨_, by rw [providerAlt, run_alt, run_alt, h0, h1, run_lits_append true _ h r hh]; rfl⟩
  obtain ⟨t, ht⟩ := hrun
  have : providerPattern.body.run providerPattern.ignoreCase (h ++ r) = r :: t := ht
  simp [Pattern.matchHere, this]

theorem toLowerCase_host (host : String) (h : List Char) (hhost : host ∈ hosts)
    (hh : sameText true h host.toList) : toLowerCase h = host := by
  have hmap : h.map Char.toLower = host.toList.map Char.toLower := by
    have := hh
    simp only [sameText, fold_true] at this
    have e : (fun c => fold true c) = Char.toLower := funext fold_true
    simpa [sameText, e] using hh
  simp only [toLowerCase, hmap]
  simp only [hosts, List.mem_cons, List.mem_singleton, List.not_mem_nil, or_false] at hhost
  rcases hhost with rfl | rfl | rfl <;> rfl

/-- In a text of the shape of a repository URL, the leftmost provider name is the host. -/
theorem exec_provider_of_shape (host : String) (u : List Char) (hhost : host ∈ hosts)
    (hu : StartsWithRepoUrl true host u) :
    ∃ m, providerPattern.exec u = some m ∧ toLowerCase m = host := by
  obtain ⟨scheme, hscheme, s, h, d, owner, repo, rest, rfl, hs, hh, -⟩ := hu
  refine ⟨h, ?_, toLowerCase_host host h hhost hh⟩
  have hskip : ∀ x ∈ s, ∀ t', providerPattern.matchHere (x :: t') = none := by
    intro x hx t'
    have hmem : x.toLower ∈ s.map Char.toLower := List.mem_map_of_mem _ hx
    have hs' : s.map Char.toLower = scheme.toList.map Char.toLower := by
      have e : (fun c => fold true c) = Char.toLower := funext fold_true
      simpa [sameText, e] using hs
    rw [hs'] at hmem
    simp only [schemes, List.mem_cons, List.mem_singleton, List.not_mem_nil, or_false] at hscheme
    apply matchHere_provider_none
    · intro hg
      rw [hg] at hmem
      rcases hscheme with rfl | rfl <;> revert hmem <;> decide
    · intro hb
      rw [hb] at hmem
      rcases hscheme with rfl | rfl <;> revert hmem <;> decide
  show (if providerPattern.anchored = true then _ else _) = _
  simp only [providerPattern, Bool.false_eq_true, if_false]
  show providerPattern.scan _ = _
  rw [scan_skip providerPattern s _ hskip]
  exact scan_of_matchHere _ _ _ (matchHere_provider_host host h _ hhost hh)

/-! ### The validation (lines 49 to 70) -/

theorem test_urlPattern_iff_matches (u : List Char) :
    urlPattern.test u = true ↔ MatchesUrlPattern true u :=
  test_urlPattern_iff true u

/-- Validation of a string provider against a URL of the right shape. -/
theorem validate_of_shape (provider url host : String) (hp : provider ≠ "")
    (hhost : host ∈ hosts) (hu : StartsWithRepoUrl true host url.toList) :
    validate (some (.str provider)) (some (.str url)) =
      if provider = host then none
      else some (.json 400 (errorBody
        ("Provider mismatch: URL contains " ++ host ++ " but you selected " ++ provider))) := by
  have hne : url ≠ "" := by
    rintro rfl
    obtain ⟨scheme, hscheme, s, h, d, owner, repo, rest, hurl, -⟩ := hu
    have : ([] : List Char) = s ++ (h ++ (d ++ (owner ++ '/' :: (repo ++ rest)))) := hurl
    simp at this
  have htest : urlPattern.test url.toList = true :=
    (test_urlPattern_iff_matches _).mpr ⟨host, hhost, hu⟩
  obtain ⟨m, hm, hlow⟩ := exec_provider_of_shape host url.toList hhost hu
  simp only [validate, truthy, toStr, jsToString, htest, hm, hlow, strictEqStr]
  simp [hp, hne]

/-- Validation of a text that has not the shape of a repository URL. -/
theorem validate_of_not_shape (provider : JSVal) (url : String) (hp : truthy (some provider) = true)
    (hne : url ≠ "") (hu : ¬ MatchesUrlPattern true url.toList) :
    validate (some provider) (some (.str url)) =
      some (.json 400 (errorBody "Invalid repository URL format")) := by
  have htest : urlPattern.test url.toList = false := by
    rw [← Bool.not_eq_true]
    exact fun h => hu ((test_urlPattern_iff_matches _).mp h)
  simp only [validate, toStr, jsToString, htest, hp]
  simp [truthy, hne]

/-- A request that passes the validation has a host name as provider and a URL of that host. -/
theorem validate_eq_none (provider repo_url : Option JSVal) (h : validate provider repo_url = none) :
    ∃ host url, host ∈ hosts ∧ provider = some (.str host) ∧ repo_url = some (.str url) ∧
      StartsWithRepoUrl true host url.toList := by
  unfold validate at h
  split_ifs at h with h1
  split at h
  · exact absurd h (by simp)
  · rename_i text htext
    split_ifs at h with h2
    split at h
    · rename_i url
      simp only [toStr, jsToString, Option.some.injEq] at htext
      subst htext
      simp only [Bool.not_eq_true', Bool.not_eq_false'] at h2
      have h2' : urlPattern.test url.toList = true := by simpa using h2
      obtain ⟨host, hhost, hshape⟩ := (test_urlPattern_iff_matches _).mp h2'
      obtain ⟨m, hm, hlow⟩ := exec_provider_of_shape host url.toList hhost hshape
      simp only [hm, hlow] at h
      split_ifs at h with h3
      · split at h <;> exact absurd h (by simp)
      · refine ⟨host, url, hhost, ?_, rfl, hshape⟩
        simp only [Bool.not_eq_true', Bool.not_eq_false'] at h3
        have h3' : strictEqStr provider host = true := by simpa using h3
        unfold strictEqStr at h3'
        split at h3'
        · rename_i t s'
          simp only [beq_iff_eq] at h3'
          rw [h3']
        · exact absurd h3' (by simp)
    · exact absurd h (by simp)

/-! ### The POST handler -/

theorem host_ne_empty (host : String) (hhost : host ∈ hosts) : host ≠ "" := by
  simp only [hosts, List.mem_cons, List.mem_singleton, List.not_mem_nil, or_false] at hhost
  rcases hhost with rfl | rfl | rfl <;> decide

theorem connectRepo_ok (file : FileState) (props : List (String × JSVal)) (env : PostEnv)
    (host url : String) (stored : List JSVal)
    (hp : lookupProp props "provider" = some (.str host))
    (hu : lookupProp props "repo_url" = some (.str url))
    (hhost : host ∈ hosts) (hshape : StartsWithRepoUrl true host url.toList)
    (hstored : getConnections file = .arr stored) (hwrite : env.writeOk = true) :
    connectRepo file (some (.obj props)) env =
      (.json 200 (okBody (.str host) (.str url) ((lookupProp props "branch").getD (.str "main"))
          env.replyNow env.replyDate),
        .json (.arr (stored ++ [savedRecord (.str host) (.str url)
          ((lookupProp props "branch").getD (.str "main")) env.saveNow env.saveDate]))) := by
  have hv := validate_of_shape host url host (host_ne_empty host hhost) hhost hshape
  rw [if_pos rfl] at hv
  simp only [connectRepo, getProp, hp, hu, hv, saveConnection, hstored, hwrite, if_true]
  rfl

theorem validate_status (provider repo_url : Option JSVal) (response : Response)
    (h : validate provider repo_url = some response) :
    response.status = 400 ∨ response.status = 500 := by
  unfold validate at h
  split_ifs at h with h1
  · simp only [Option.some.injEq] at h
    subst h
    exact Or.inl rfl
  · split at h
    · simp only [Option.some.injEq] at h
      subst h
      exact Or.inr rfl
    · split_ifs at h with h2
      · simp only [Option.some.injEq] at h
        subst h
        exact Or.inl rfl
      · split at h
        · split at h
          · simp only [Option.some.injEq] at h
            subst h
            exact Or.inr rfl
          · simp only at h
            split_ifs at h with h3
            · split at h
              · simp only [Option.some.injEq] at h
                subst h
                exact Or.inl rfl
              · simp only [Option.some.injEq] at h
                subst h
                exact Or.inl rfl
        · simp only [Option.some.injEq] at h
          subst h
          exact Or.inr rfl

theorem getProp_some_some (k : String) (body : Option JSVal) (v : JSVal)
    (h : getProp k body = some (some v)) :
    ∃ props, body = some (.obj props) ∧ lookupProp props k = some v := by
  unfold getProp at h
  split at h
  · exact absurd h (by simp)
  · exact absurd h (by simp)
  · rename_i props
    exact ⟨props, rfl, by simpa using h⟩
  · exact absurd h (by simp)

theorem connectRepo_cases (file : FileState) (body : Option JSVal) (env : PostEnv) :
    ((connectRepo file body env).2 = file ∧ (connectRepo file body env).1.status ≠ 200) ∨
    ∃ props host url stored, body = some (.obj props) ∧
      lookupProp props "provider" = some (.str host) ∧
      lookupProp props "repo_url" = some (.str url) ∧
      host ∈ hosts ∧ StartsWithRepoUrl true host url.toList ∧
      getConnections file = .arr stored ∧ env.writeOk = true := by
  unfold connectRepo
  split
  · rename_i provider repo_url branchProp hprov hurl hbranch
    cases hv : validate provider repo_url with
    | some response =>
      refine Or.inl ⟨by simp, ?_⟩
      simp only
      rcases validate_status _ _ _ hv with h | h
      · rw [h]; decide
      · rw [h]; decide
    | none =>
      obtain ⟨host, url, hhost, rfl, rfl, hshape⟩ := validate_eq_none _ _ hv
      obtain ⟨props, rfl, hp⟩ := getProp_some_some _ _ _ hprov
      have hu : lookupProp props "repo_url" = some (.str url) := by
        simpa [getProp] using hurl
      simp only [saveConnection]
      cases hstored : getConnections file with
      | arr stored =>
        cases hw : env.writeOk with
        | true => exact Or.inr ⟨props, host, url, stored, rfl, hp, hu, hhost, hshape, rfl, rfl⟩
        | false => exact Or.inl ⟨by simp, by simp [Response.status]⟩
      | _ => exact Or.inl ⟨by simp, by simp [Response.status]⟩
  · left
    exact ⟨rfl, by simp [Response.status]⟩

/-! ### Sequences of requests -/

theorem step_cases (file : FileState) (r : Request) :
    ((step file r).2 = file ∧
      ¬ (∃ body env, r = .connectRepo body env ∧ (step file r).1.status = 200)) ∨
    ∃ props env host url stored, r = .connectRepo (some (.obj props)) env ∧
      host ∈ hosts ∧ StartsWithRepoUrl true host url.toList ∧
      getConnections file = .arr stored ∧
      step file r =
        (.json 200 (okBody (.str host) (.str url) ((lookupProp props "branch").getD (.str "main"))
          env.replyNow env.replyDate),
        .json (.arr (stored ++ [savedRecord (.str host) (.str url)
          ((lookupProp props "branch").getD (.str "main")) env.saveNow env.saveDate]))) := by
  cases r with
  | connectRepo body env =>
    rcases connectRepo_cases file body env with ⟨h1, h2⟩ | ⟨props, host, url, stored, rfl, hp, hu,
      hhost, hshape, hstored, hw⟩
    · refine Or.inl ⟨h1, ?_⟩
      rintro ⟨body', env', heq, hst⟩
      exact h2 hst
    · exact Or.inr ⟨props, env, host, url, stored, rfl, hhost, hshape, hstored,
        connectRepo_ok file props env host url stored hp hu hhost hshape hstored hw⟩
  | listConnections => exact Or.inl ⟨rfl, by simp⟩
  | getConnection id => exact Or.inl ⟨rfl, by simp⟩
  | health date => exact Or.inl ⟨rfl, by simp⟩
  | other => exact Or.inl ⟨rfl, by simp⟩

theorem goodRecord_saved (host url : String) (branch : JSVal) (now date : TimeValue)
    (hhost : host ∈ hosts) (hshape : StartsWithRepoUrl true host url.toList) :
    GoodRecord (savedRecord (.str host) (.str url) branch now date) :=
  ⟨_, host, url, rfl, rfl, hhost, rfl, hshape, rfl⟩

theorem runAll_good (reqs : List Request) (file : FileState) (l : List JSVal)
    (hl : getConnections file = .arr l) (hgood : ∀ c ∈ l, GoodRecord c) :
    ∃ l', getConnections (runAll file reqs) = .arr l' ∧ ∀ c ∈ l', GoodRecord c := by
  induction reqs generalizing file l with
  | nil => exact ⟨l, hl, hgood⟩
  | cons r rs ih =>
    simp only [runAll]
    rcases step_cases file r with ⟨h1, -⟩ | ⟨props, env, host, url, stored, -, hhost, hshape,
      hstored, hstep⟩
    · rw [h1]
      exact ih file l hl hgood
    · rw [hstep]
      rw [hl] at hstored
      cases hstored
      refine ih _ _ rfl ?_
      intro c hc
      rcases List.mem_append.mp hc with hc | hc
      · exact hgood c hc
      · rw [List.mem_singleton] at hc
        subst hc
        exact goodRecord_saved host url _ _ _ hhost hshape

theorem runAll_length (reqs : List Request) (file : FileState) (l : List JSVal)
    (hl : getConnections file = .arr l) :
    ∃ l', getConnections (runAll file reqs) = .arr l' ∧
      l'.length = l.length + successes file reqs := by
  induction reqs generalizing file l with
  | nil => exact ⟨l, hl, rfl⟩
  | cons r rs ih =>
    simp only [runAll, successes]
    rcases step_cases file r with ⟨h1, h2⟩ | ⟨props, env, host, url, stored, rfl, hhost, hshape,
      hstored, hstep⟩
    · rw [h1]
      obtain ⟨l', hl', hlen⟩ := ih file l hl
      refine ⟨l', hl', ?_⟩
      have h0 : (match r with
          | .connectRepo _ _ => if (step file r).1.status = 200 then 1 else 0
          | _ => 0) = 0 := by
        cases r with
        | connectRepo body env =>
          simp only
          rw [if_neg]
          exact fun hst => h2 ⟨body, env, rfl, hst⟩
        | _ => rfl
      rw [h0, hlen]
      omega
    · rw [hstep]
      rw [hl] at hstored
      cases hstored
      simp only
      obtain ⟨l', hl', hlen⟩ := ih (.json (.arr (l ++ [savedRecord (.str host) (.str url)
        ((lookupProp props "branch").getD (.str "main")) env.saveNow env.saveDate]))) _ rfl
      refine ⟨l', hl', ?_⟩
      rw [hlen]
      simp only [List.length_append, List.length_singleton, Response.status, if_true]
      omega

/-! ### Looking a record up by id -/

theorem strictEqNum_iff (wanted : JSNumber) (c : JSVal) (hc : c ≠ .null) :
    ∃ idProp, getProp "id" (some c) = some idProp ∧
      (strictEqNum idProp wanted = true ↔ HasId wanted c) := by
  cases c with
  | null => exact absurd rfl hc
  | obj props =>
    refine ⟨lookupProp props "id", rfl, ?_⟩
    have hrid : recordId (.obj props) =
        (match lookupProp props "id" with
          | some (.num n) => some n.val
          | _ => none) := rfl
    unfold HasId
    rw [hrid]
    generalize lookupProp props "id" = v
    cases v with
    | none => simp [strictEqNum]
    | some v =>
      cases v with
      | num m =>
        cases wanted with
        | finite w =>
          simp only [strictEqNum, beq_iff_eq, JSNumber.finite.injEq, Option.some.injEq]
          constructor
          · intro h
            exact ⟨m.val, h.symm, rfl⟩
          · rintro ⟨n, rfl, h⟩
            exact h
        | _ => simp [strictEqNum]
      | _ => cases wanted <;> simp [strictEqNum]
  | bool b => exact ⟨none, rfl, by simp [strictEqNum, HasId, recordId]⟩
  | num n => exact ⟨none, rfl, by simp [strictEqNum, HasId, recordId]⟩
  | str s => exact ⟨none, rfl, by simp [strictEqNum, HasId, recordId]⟩
  | arr l => exact ⟨none, rfl, by simp [strictEqNum, HasId, recordId]⟩

theorem findById_none (wanted : JSNumber) (stored : List JSVal)
    (hrec : ∀ c ∈ stored, c ≠ .null) (hno : ∀ c ∈ stored, ¬ HasId wanted c) :
    findById wanted stored = some none := by
  induction stored with
  | nil => rfl
  | cons c rest ih =>
    obtain ⟨idProp, hget, hiff⟩ := strictEqNum_iff wanted c (hrec c (List.mem_cons_self _ _))
    have hne : strictEqNum idProp wanted = false := by
      rw [← Bool.not_eq_true, hiff]
      exact hno c (List.mem_cons_self _ _)
    simp only [findById, hget, hne, Bool.false_eq_true, if_false]
    exact ih (fun x hx => hrec x (List.mem_cons_of_mem _ hx))
      (fun x hx => hno x (List.mem_cons_of_mem _ hx))

theorem findById_first (wanted : JSNumber) (before after : List JSVal) (c : JSVal)
    (hrec : ∀ b ∈ before, b ≠ .null) (hno : ∀ b ∈ before, ¬ HasId wanted b)
    (hc : HasId wanted c) : findById wanted (before ++ c :: after) = some (some c) := by
  induction before with
  | nil =>
    have hcn : c ≠ .null := by
      rintro rfl
      obtain ⟨n, -, hn⟩ := hc
      simp [recordId] at hn
    obtain ⟨idProp, hget, hiff⟩ := strictEqNum_iff wanted c hcn
    simp only [List.nil_append, findById, hget, hiff.mpr hc, if_true]
  | cons b rest ih =>
    obtain ⟨idProp, hget, hiff⟩ := strictEqNum_iff wanted b (hrec b (List.mem_cons_self _ _))
    have hne : strictEqNum idProp wanted = false := by
      rw [← Bool.not_eq_true, hiff]
      exact hno b (List.mem_cons_self _ _)
    simp only [List.cons_append, findById, hget, hne, Bool.false_eq_true, if_false]
    exact ih (fun x hx => hrec x (List.mem_cons_of_mem _ hx))
      (fun x hx => hno x (List.mem_cons_of_mem _ hx))

theorem exists_first (P : JSVal → Prop) (l : List JSVal) (h : ∃ c ∈ l, P c) :
    ∃ before c after, l = before ++ c :: after ∧ (∀ b ∈ before, ¬ P b) ∧ P c := by
  induction l with
  | nil =>
    obtain ⟨c, hc, -⟩ := h
    simp at hc
  | cons x rest ih =>
    by_cases hx : P x
    · exact ⟨[], x, rest, rfl, by simp, hx⟩
    · obtain ⟨c, hc, hP⟩ := h
      rcases List.mem_cons.mp hc with rfl | hc
      · exact absurd hP hx
      · obtain ⟨before, c', after, rfl, hb, hc'⟩ := ih ⟨c, hc, hP⟩
        refine ⟨x :: before, c', after, rfl, ?_, hc'⟩
        intro b hb'
        rcases List.mem_cons.mp hb' with rfl | hb'
        · exact hx
        · exact hb b hb'

theorem truthy_of_hasId (wanted : JSNumber) (c : JSVal) (hc : HasId wanted c) :
    truthy (some c) = true := by
  obtain ⟨n, -, hn⟩ := hc
  cases c <;> simp [recordId] at hn
  rfl

/-! ### Two URLs of the right shape -/

theorem sample_shape : StartsWithRepoUrl true "github" "https://github.com/a/b".toList :=
  ⟨"https://", by decide, "https://".toList, "github".toList, ".com/".toList, ['a'], ['b'], [],
    rfl, rfl, rfl, rfl, by decide, by decide, by decide, by decide⟩

theorem gitlab_shape : StartsWithRepoUrl true "gitlab" "https://gitlab.com/a/b".toList :=
  ⟨"https://", by decide, "https://".toList, "gitlab".toList, ".com/".toList, ['a'], ['b'], [],
    rfl, rfl, rfl, rfl, by decide, by decide, by decide, by decide⟩

/-! ### Sequences of valid requests -/

theorem successes_replicate (n : Nat) (file : FileState) (stored : List JSVal)
    (hfile : getConnections file = .arr stored) :
    successes file (List.replicate n (.connectRepo (some (.obj sampleProps)) sampleEnv)) = n := by
  induction n generalizing file stored with
  | zero => rfl
  | succ n ih =>
    have hstep := connectRepo_ok file sampleProps sampleEnv "github" "https://github.com/a/b"
      stored rfl rfl (by decide) sample_shape hfile rfl
    simp only [List.replicate_succ, successes, step, hstep, Response.status, if_true]
    rw [ih (.json (.arr (stored ++ [savedRecord (.str "github") (.str "https://github.com/a/b")
      ((lookupProp sampleProps "branch").getD (.str "main")) sampleEnv.saveNow
      sampleEnv.saveDate]))) _ rfl]
    omega

/-! ### `parseInt` reads the decimal text of an integer -/

theorem digitValue_digitChar (d : Nat) (hd : d < 10) :
    digitValue 10 (Nat.digitChar d) = some d := by
  interval_cases d <;> rfl

theorem isDecimal_digitChar (d : Nat) (hd : d < 10) :
    48 ≤ (Nat.digitChar d).toNat ∧ (Nat.digitChar d).toNat ≤ 57 := by
  interval_cases d <;> decide

theorem readDigits_toDigitsCore (fuel n : Nat) (ds : List Char) (acc : Nat) (seen : Bool)
    (h : n < fuel) :
    ∃ acc', readDigits 10 (Nat.toDigitsCore 10 fuel n ds) acc seen = readDigits 10 ds acc' true ∧
      (acc = 0 → acc' = n) := by
  induction fuel generalizing n ds acc seen with
  | zero => omega
  | succ fuel ih =>
    have hd := digitValue_digitChar (n % 10) (Nat.mod_lt _ (by omega))
    simp only [Nat.toDigitsCore]
    split_ifs with h0
    · refine ⟨acc * 10 + n % 10, by simp only [readDigits, hd], ?_⟩
      rintro rfl
      omega
    · obtain ⟨acc1, h1, h2⟩ := ih (n / 10) (Nat.digitChar (n % 10) :: ds) acc seen (by omega)
      refine ⟨acc1 * 10 + n % 10, by rw [h1]; simp only [readDigits, hd], ?_⟩
      intro hacc
      rw [h2 hacc]
      omega

theorem toDigitsCore_digits (fuel n : Nat) (ds : List Char) (h : n < fuel) :
    ∃ c rest, Nat.toDigitsCore 10 fuel n ds = c :: rest ∧ isDecimal c ∧
      (rest = ds ∨ ∃ c' rest', rest = c' :: rest' ∧ isDecimal c') := by
  induction fuel generalizing n ds with
  | zero => omega
  | succ fuel ih =>
    have hd := isDecimal_digitChar (n % 10) (Nat.mod_lt _ (by omega))
    simp only [Nat.toDigitsCore]
    split_ifs with h0
    · exact ⟨_, ds, rfl, hd, Or.inl rfl⟩
    · obtain ⟨c, rest, h1, hc, h3⟩ := ih (n / 10) (Nat.digitChar (n % 10) :: ds) (by omega)
      refine ⟨c, rest, h1, hc, Or.inr ?_⟩
      rcases h3 with rfl | h3
      · exact ⟨_, ds, rfl, hd⟩
      · exact h3

theorem startsDecimal_toDigits (n : Nat) : StartsDecimal (Nat.toDigits 10 n) := by
  obtain ⟨c, rest, h, hc, hrest⟩ := toDigitsCore_digits (n + 1) n [] (by omega)
  rw [Nat.toDigits, h]
  rcases hrest with rfl | ⟨c', rest', rfl, hc'⟩
  · exact hc
  · exact ⟨hc, hc'⟩

theorem readMagnitude_decimal (l : List Char) (hl : StartsDecimal l) :
    readMagnitude l = readDigits 10 l 0 false := by
  unfold readMagnitude
  split
  · exact absurd hl.2 (by unfold isDecimal; decide)
  · exact absurd hl.2 (by unfold isDecimal; decide)
  · rfl

theorem roundToDouble_safe (m : Nat) (hm : m ≤ 9007199254740992) : roundToDouble m = some m := by
  unfold roundToDouble
  rw [if_pos (by simpa using hm)]

theorem parseInt_unsigned (l : List Char) (m : Nat) (hl : StartsDecimal l)
    (hread : readDigits 10 l 0 false = some m) (hm : m ≤ 9007199254740992) :
    parseInt (String.mk l) = .finite (m : Int) := by
  cases l with
  | nil => exact absurd hl (by simp [StartsDecimal])
  | cons c rest =>
    have hc : isDecimal c := by
      cases rest with
      | nil => exact hl
      | cons c' rest' => exact hl.1
    have hws : isStrWhiteSpace c = false := by
      obtain ⟨h1, h2⟩ := hc
      simp only [isStrWhiteSpace, Bool.or_eq_false_iff, Bool.and_eq_false_iff, decide_eq_false_iff_not,
        beq_eq_false_iff_ne, ne_eq]
      omega
    have hminus : c ≠ '-' := by
      rintro rfl
      exact absurd hc (by unfold isDecimal; decide)
    have hplus : c ≠ '+' := by
      rintro rfl
      exact absurd hc (by unfold isDecimal; decide)
    have hsign : splitSign (c :: rest) = (false, c :: rest) := by
      unfold splitSign
      split
      · rename_i t heq
        simp only [List.cons.injEq] at heq
        exact absurd heq.1 hminus
      · rename_i t heq
        simp only [List.cons.injEq] at heq
        exact absurd heq.1 hplus
      · rfl
    unfold parseInt
    simp only [String.toList, List.dropWhile, hws, hsign, readMagnitude_decimal _ hl, hread,
      roundToDouble_safe m hm]
    rfl

theorem parseInt_negative (l : List Char) (m : Nat) (hl : StartsDecimal l)
    (hread : readDigits 10 l 0 false = some m) (hm : m ≤ 9007199254740992) :
    parseInt (String.mk ('-' :: l)) = .finite (- (m : Int)) := by
  have hws : isStrWhiteSpace '-' = false := by decide
  unfold parseInt
  simp only [String.toList, List.dropWhile, hws, splitSign, readMagnitude_decimal _ hl, hread,
    roundToDouble_safe m hm]
  rfl

theorem readDigits_toDigits (n : Nat) : readDigits 10 (Nat.toDigits 10 n) 0 false = some n := by
  obtain ⟨acc, h1, h2⟩ := readDigits_toDigitsCore (n + 1) n [] 0 false (by omega)
  rw [Nat.toDigits, h1, h2 rfl]
  rfl

/-- The function `parseInt` reads the decimal text of an integer of magnitude at most `2^53`
as that integer. -/
theorem parseInt_toString (n : Int) (hn : n.natAbs ≤ 9007199254740992) :
    parseInt (toString n) = .finite n := by
  cases n with
  | ofNat m =>
    show parseInt (String.mk (Nat.toDigits 10 m)) = _
    exact parseInt_unsigned _ m (startsDecimal_toDigits m) (readDigits_toDigits m) hn
  | negSucc m =>
    show parseInt (String.mk ('-' :: Nat.toDigits 10 (m + 1))) = _
    exact parseInt_negative _ (m + 1) (startsDecimal_toDigits (m + 1))
      (readDigits_toDigits (m + 1)) hn

theorem getConnection_spec (file : FileState) (stored : List JSVal) (id : String)
    (hfile : getConnections file = .arr stored) (hrec : ∀ c ∈ stored, c ≠ .null) :
    ((∀ c ∈ stored, ¬ HasId (parseInt id) c) →
      getConnection file id = .json 404 (errorBody "Connection not found")) ∧
    ((∃ c ∈ stored, HasId (parseInt id) c) →
      ∃ before c after, stored = before ++ c :: after ∧
        (∀ b ∈ before, ¬ HasId (parseInt id) b) ∧ HasId (parseInt id) c ∧
        getConnection file id = .json 200 (.obj [("connection", c)])) := by
  constructor
  · intro hno
    simp only [getConnection, hfile, findById_none _ stored hrec hno, truthy]
    rfl
  · intro hex
    obtain ⟨before, c, after, rfl, hb, hc⟩ := exists_first _ stored hex
    refine ⟨before, c, after, rfl, hb, hc, ?_⟩
    have hfind := findById_first (parseInt id) before after c
      (fun b hb' => hrec b (List.mem_append_left _ hb')) hb hc
    simp only [getConnection, hfile, hfind, truthy_of_hasId _ c hc, if_true]

theorem sampleStored_records : ∀ c ∈ sampleStored, c ≠ .null := by
  intro c hc
  simp only [sampleStored, List.mem_cons, List.mem_singleton, List.not_mem_nil, or_false] at hc
  rcases hc with rfl | rfl | rfl <;> simp [savedRecord]

/-! ## The claims -/

/-- C1: a body whose `provider` and `repo_url` are non-empty strings, whose `repo_url` has the
shape of a repository URL and whose `provider` is the lower-case host name of that URL, is
answered 200 with `success: true` when the stored document is a list and the write succeeds;
`data` carries the provider and the URL of the body and its branch, or `"main"` when the
body has no branch. -/
theorem connect_repo_echoes_valid_payload (file : FileState) (stored : List JSVal)
    (props : List (String × JSVal)) (env : PostEnv) (provider repo_url host : String)
    (hprovider : lookupProp props "provider" = some (.str provider)) (_hpne : provider ≠ "")
    (hurl : lookupProp props "repo_url" = some (.str repo_url)) (_hune : repo_url ≠ "")
    (hhost : host ∈ hosts) (hshape : StartsWithRepoUrl true host repo_url.toList)
    (hmatch : provider = host)
    (hfile : getConnections file = .arr stored) (hwrite : env.writeOk = true) :
    (connectRepo file (some (.obj props)) env).1 =
      .json 200 (.obj [("success", .bool true),
        ("message", .str "Repository connected successfully"),
        ("data", .obj [("provider", .str provider), ("repo_url", .str repo_url),
          ("branch", (lookupProp props "branch").getD (.str "main")),
          ("id", .num env.replyNow.toSafeInt),
          ("connected_at", .str (toISOString env.replyDate.ms))])]) := by
  subst hmatch
  rw [connectRepo_ok file props env provider repo_url stored hprovider hurl hhost hshape hfile
    hwrite]
  rfl

theorem connect_repo_echoes_valid_payload_witness :
    (connectRepo .absent (some (.obj sampleProps)) sampleEnv).1 =
      .json 200 (.obj [("success", .bool true),
        ("message", .str "Repository connected successfully"),
        ("data", .obj [("provider", .str "github"), ("repo_url", .str "https://github.com/a/b"),
          ("branch", .str "main"), ("id", .num ⟨1700000000001, by decide⟩),
          ("connected_at", .str "2023-11-14T22:13:20.001Z")])]) :=
  connect_repo_echoes_valid_payload .absent [] sampleProps sampleEnv "github"
    "https://github.com/a/b" "github" rfl (by decide) rfl (by decide) (by decide) sample_shape rfl
    rfl rfl

/-- C2: when `provider` is a non-empty string and `repo_url` has the shape of a repository
URL whose host name, lower-cased, is `host`, and `host` differs from `provider`, the answer is
400 with the error `Provider mismatch: URL contains <host> but you selected <provider>`, and
the file is left as it was.  The host is the name right after the scheme, whatever names
occur later in the URL. -/
theorem provider_mismatch_names_host (file : FileState) (props : List (String × JSVal))
    (env : PostEnv) (provider repo_url host : String)
    (hprovider : lookupProp props "provider" = some (.str provider)) (hpne : provider ≠ "")
    (hurl : lookupProp props "repo_url" = some (.str repo_url))
    (hhost : host ∈ hosts) (hshape : StartsWithRepoUrl true host repo_url.toList)
    (hdiff : host ≠ provider) :
    connectRepo file (some (.obj props)) env =
      (.json 400 (errorBody
        ("Provider mismatch: URL contains " ++ host ++ " but you selected " ++ provider)), file) := by
  have hv := validate_of_shape provider repo_url host hpne hhost hshape
  rw [if_neg (fun h => hdiff h.symm)] at hv
  simp only [connectRepo, getProp, hprovider, hurl, hv]

theorem provider_mismatch_names_host_witness :
    connectRepo .absent
        (some (.obj [("provider", .str "github"), ("repo_url", .str "https://gitlab.com/a/b")]))
        sampleEnv =
      (.json 400 (errorBody "Provider mismatch: URL contains gitlab but you selected github"),
        .absent) ∧
    connectRepo .absent
        (some (.obj [("provider", .str "github"),
          ("repo_url", .str "https://GitLab.com/github/bitbucket")]))
        sampleEnv =
      (.json 400 (errorBody "Provider mismatch: URL contains gitlab but you selected github"),
        .absent) :=
  ⟨provider_mismatch_names_host .absent
      [("provider", .str "github"), ("repo_url", .str "https://gitlab.com/a/b")] sampleEnv
      "github" "https://gitlab.com/a/b" "gitlab" rfl (by decide) rfl (by decide)
      gitlab_shape (by decide),
    provider_mismatch_names_host .absent
      [("provider", .str "github"), ("repo_url", .str "https://GitLab.com/github/bitbucket")]
      sampleEnv "github" "https://GitLab.com/github/bitbucket" "gitlab" rfl (by decide) rfl
      (by decide)
      ⟨"https://", by decide, "https://".toList, "GitLab".toList, ".com/".toList,
        "github".toList, "bitbucket".toList, [], rfl, rfl, rfl, rfl, by decide, by decide,
        by decide, by decide⟩
      (by decide)⟩

/-- C3, as amended: when `provider` is truthy and `repo_url` is a non-empty string that has
not, letters being compared up to ASCII case, the shape of a repository URL, the answer is
400 with the error `Invalid repository URL format`, whatever the provider, and the file is
left as it was. -/
theorem invalid_url_format_rejected (file : FileState) (props : List (String × JSVal))
    (env : PostEnv) (provider : JSVal) (repo_url : String)
    (hprovider : lookupProp props "provider" = some provider)
    (htruthy : truthy (some provider) = true)
    (hurl : lookupProp props "repo_url" = some (.str repo_url)) (hune : repo_url ≠ "")
    (hshape : ¬ MatchesUrlPattern true repo_url.toList) :
    connectRepo file (some (.obj props)) env =
      (.json 400 (errorBody "Invalid repository URL format"), file) := by
  have hv := validate_of_not_shape provider repo_url htruthy hune hshape
  simp only [connectRepo, getProp, hprovider, hurl, hv]

theorem invalid_url_format_rejected_witness :
    connectRepo .absent
        (some (.obj [("provider", .str "github"), ("repo_url", .str "ftp://github.com/a/b")]))
        sampleEnv =
      (.json 400 (errorBody "Invalid repository URL format"), .absent) :=
  invalid_url_format_rejected .absent
    [("provider", .str "github"), ("repo_url", .str "ftp://github.com/a/b")] sampleEnv
    (.str "github") "ftp://github.com/a/b" rfl rfl rfl (by decide)
    (fun h => absurd ((test_urlPattern_iff true _).mpr h) (by decide))

/-- C3, as it is written (the letters of the scheme and of the host compared exactly): the URL
`HTTP://github.com/a/b` does not start with `http://` or `https://`, and with the provider
`github` the request is answered 200, not 400. -/
theorem invalid_url_format_exact_case_counterexample :
    lookupProp [("provider", JSVal.str "github"), ("repo_url", .str "HTTP://github.com/a/b")]
        "provider" = some (.str "github") ∧
      truthy (some (.str "github")) = true ∧
      "HTTP://github.com/a/b" ≠ "" ∧
      ¬ MatchesUrlPattern false "HTTP://github.com/a/b".toList ∧
      (connectRepo .absent
        (some (.obj [("provider", .str "github"), ("repo_url", .str "HTTP://github.com/a/b")]))
        sampleEnv).1 =
        .json 200 (okBody (.str "github") (.str "HTTP://github.com/a/b") (.str "main")
          ⟨1700000000001, by decide⟩ ⟨1700000000001, by decide⟩) := by
  refine ⟨rfl, rfl, by decide, ?_, rfl⟩
  intro h
  exact absurd ((test_urlPattern_iff false _).mpr h) (by decide)

/-- C4: a POST answered 200 leaves in the file the list that was stored before, unchanged and
in the same order, followed by one new record.  Hence, from a file that is absent, empty or
holds the empty list, after any sequence of requests `GET /api/connections` returns a list
whose length is the number of POSTs of the sequence that were answered 200; and for every `N`
there is such a sequence with `N` successful POSTs. -/
theorem post_appends_exactly_one_record :
    (∀ (file : FileState) (body : Option JSVal) (env : PostEnv),
      (connectRepo file body env).1.status = 200 →
      ∃ stored record, getConnections file = .arr stored ∧
        getConnections (connectRepo file body env).2 = .arr (stored ++ [record])) ∧
    (∀ (reqs : List Request) (start : FileState), getConnections start = .arr [] →
      ∃ l, listConnections (runAll start reqs) = .json 200 (.obj [("connections", .arr l)]) ∧
        l.length = successes start reqs) ∧
    (∀ N : Nat, ∃ reqs, successes .absent reqs = N ∧
      ∃ l, listConnections (runAll .absent reqs) = .json 200 (.obj [("connections", .arr l)]) ∧
        l.length = N) := by
  refine ⟨?_, ?_, ?_⟩
  · intro file body env h
    rcases connectRepo_cases file body env with ⟨-, h2⟩ | ⟨props, host, url, stored, rfl, hp, hu,
      hhost, hshape, hstored, hw⟩
    · exact absurd h h2
    · rw [connectRepo_ok file props env host url stored hp hu hhost hshape hstored hw]
      exact ⟨stored, _, hstored, rfl⟩
  · intro reqs start h0
    obtain ⟨l, hl, hlen⟩ := runAll_length reqs start [] h0
    refine ⟨l, ?_, by simpa using hlen⟩
    simp only [listConnections, hl]
  · intro N
    refine ⟨List.replicate N (.connectRepo (some (.obj sampleProps)) sampleEnv),
      successes_replicate N .absent [] rfl, ?_⟩
    obtain ⟨l, hl, hlen⟩ := runAll_length
      (List.replicate N (.connectRepo (some (.obj sampleProps)) sampleEnv)) .absent [] rfl
    refine ⟨l, ?_, ?_⟩
    · simp only [listConnections, hl]
    · rw [hlen, successes_replicate N .absent [] rfl]
      simp

theorem post_appends_exactly_one_record_witness :
    (∃ stored record, getConnections .absent = .arr stored ∧
      getConnections (connectRepo .absent (some (.obj sampleProps)) sampleEnv).2 =
        .arr (stored ++ [record])) ∧
    (∃ l, listConnections (runAll .invalid
        [.connectRepo (some (.obj sampleProps)) sampleEnv, .listConnections,
          .connectRepo none sampleEnv, .connectRepo (some (.obj sampleProps)) sampleEnv]) =
        .json 200 (.obj [("connections", .arr l)]) ∧
      l.length = 2) :=
  ⟨post_appends_exactly_one_record.1 .absent (some (.obj sampleProps)) sampleEnv (by decide),
    post_appends_exactly_one_record.2.1 _ .invalid rfl⟩

/-- C5: after a POST of an object body that was answered 200, the list that
`GET /api/connections` returns is the list stored before followed by a record whose
`provider` and `repo_url` are the values of the body, and whose `branch` is the branch of the
body, or `"main"` when the body has none. -/
theorem post_then_get_round_trip (file : FileState) (props : List (String × JSVal))
    (env : PostEnv) (h : (connectRepo file (some (.obj props)) env).1.status = 200) :
    ∃ stored recordProps provider repo_url,
      getConnections file = .arr stored ∧
      listConnections (connectRepo file (some (.obj props)) env).2 =
        .json 200 (.obj [("connections", .arr (stored ++ [.obj recordProps]))]) ∧
      lookupProp props "provider" = some provider ∧
      lookupProp recordProps "provider" = some provider ∧
      lookupProp props "repo_url" = some repo_url ∧
      lookupProp recordProps "repo_url" = some repo_url ∧
      lookupProp recordProps "branch" = some ((lookupProp props "branch").getD (.str "main")) := by
  rcases connectRepo_cases file (some (.obj props)) env with ⟨-, h2⟩ | ⟨props', host, url, stored,
    hbody, hp, hu, hhost, hshape, hstored, hw⟩
  · exact absurd h h2
  · simp only [Option.some.injEq, JSVal.obj.injEq] at hbody
    subst hbody
    rw [connectRepo_ok file props env host url stored hp hu hhost hshape hstored hw]
    exact ⟨stored, _, .str host, .str url, hstored, rfl, hp, rfl, hu, rfl, rfl⟩

theorem post_then_get_round_trip_witness :
    ∃ stored recordProps provider repo_url,
      getConnections .absent = .arr stored ∧
      listConnections (connectRepo .absent (some (.obj sampleProps)) sampleEnv).2 =
        .json 200 (.obj [("connections", .arr (stored ++ [.obj recordProps]))]) ∧
      lookupProp sampleProps "provider" = some provider ∧
      lookupProp recordProps "provider" = some provider ∧
      lookupProp sampleProps "repo_url" = some repo_url ∧
      lookupProp recordProps "repo_url" = some repo_url ∧
      lookupProp recordProps "branch" =
        some ((lookupProp sampleProps "branch").getD (.str "main")) :=
  post_then_get_round_trip .absent sampleProps sampleEnv (by decide)

/-- C6, as amended: when no element of the stored list is `null`, `GET /api/connections/<n>`
for an integer `n` of magnitude at most `2^53` is answered 404 with the error
`Connection not found` exactly when no stored record has the id `n`; otherwise it is answered
200 with the first record of the list whose id is `n`. -/
theorem get_connection_by_id (file : FileState) (stored : List JSVal) (n : Int)
    (hfile : getConnections file = .arr stored) (hrec : ∀ c ∈ stored, c ≠ .null)
    (hn : n.natAbs ≤ 9007199254740992) :
    (getConnection file (toString n) = .json 404 (errorBody "Connection not found") ↔
      ∀ c ∈ stored, recordId c ≠ some n) ∧
    ((∃ c ∈ stored, recordId c = some n) →
      ∃ before c after, stored = before ++ c :: after ∧
        (∀ b ∈ before, recordId b ≠ some n) ∧ recordId c = some n ∧
        getConnection file (toString n) = .json 200 (.obj [("connection", c)])) := by
  have hid : ∀ c, HasId (parseInt (toString n)) c ↔ recordId c = some n := by
    intro c
    rw [parseInt_toString n hn]
    constructor
    · rintro ⟨m, hm, hc⟩
      simp only [JSNumber.finite.injEq] at hm
      rw [hm]
      exact hc
    · intro hc
      exact ⟨n, rfl, hc⟩
  obtain ⟨h404, h200⟩ := getConnection_spec file stored (toString n) hfile hrec
  simp only [hid] at h404 h200
  refine ⟨⟨?_, h404⟩, h200⟩
  intro h c hc hc'
  obtain ⟨before, c0, after, -, -, -, hok⟩ := h200 ⟨c, hc, hc'⟩
  rw [h] at hok
  simp at hok

theorem get_connection_by_id_witness :
    getConnection (.json (.arr sampleStored)) (toString (9 : Int)) =
      .json 404 (errorBody "Connection not found") ∧
    ∃ before c after, sampleStored = before ++ c :: after ∧
      (∀ b ∈ before, recordId b ≠ some 5) ∧ recordId c = some 5 ∧
      getConnection (.json (.arr sampleStored)) (toString (5 : Int)) =
        .json 200 (.obj [("connection", c)]) :=
  ⟨(get_connection_by_id (.json (.arr sampleStored)) sampleStored 9 rfl sampleStored_records
      (by decide)).1.mpr
      (by
        intro c hc
        simp only [sampleStored, List.mem_cons, List.mem_singleton, List.not_mem_nil,
          or_false] at hc
        rcases hc with rfl | rfl | rfl <;> decide),
    (get_connection_by_id (.json (.arr sampleStored)) sampleStored 5 rfl sampleStored_records
      (by decide)).2
      ⟨savedRecord (.str "gitlab") (.str "https://gitlab.com/a/b") (.str "dev")
          ⟨5, by decide⟩ ⟨5, by decide⟩,
        by simp [sampleStored], rfl⟩⟩

/-- C6, as it is written (every stored list, every integer id).  The list holds one record,
of id 9007199254740992; no record has the id 9007199254740993, yet
`GET /api/connections/9007199254740993` is answered 200 with that record, because `parseInt`
returns the double 9007199254740992.  And on the list `[null]`, where no record has the id 5,
`GET /api/connections/5` is answered neither 404 nor 200: reading `c.id` throws. -/
theorem get_connection_by_id_counterexample :
    (∀ c ∈ [largeIdRecord], recordId c ≠ some 9007199254740993) ∧
    recordId largeIdRecord = some 9007199254740992 ∧
    getConnection (.json (.arr [largeIdRecord])) (toString (9007199254740993 : Int)) =
      .json 200 (.obj [("connection", largeIdRecord)]) ∧
    (∀ c ∈ [JSVal.null], recordId c ≠ some 5) ∧
    getConnection (.json (.arr [.null])) (toString (5 : Int)) = .uncaught 500 := by
  refine ⟨?_, rfl, rfl, ?_, rfl⟩
  · intro c hc
    rw [List.mem_singleton] at hc
    subst hc
    decide
  · intro c hc
    rw [List.mem_singleton] at hc
    subst hc
    decide

/-- C7: the clock read 1700000000000 while the record was saved and 1700000000001 when the
reply was built.  The stored record has the id 1700000000000 and a `status`; the `data` of
the reply has the id 1700000000001, another `connected_at` and no `status`; and
`GET /api/connections/1700000000001`, the id of the reply, is answered 404, while the stored
record is found under 1700000000000. -/
theorem reply_is_not_the_saved_record :
    connectRepo .absent (some (.obj sampleProps)) sampleEnv =
      (.json 200 (.obj [("success", .bool true),
          ("message", .str "Repository connected successfully"),
          ("data", .obj [("provider", .str "github"), ("repo_url", .str "https://github.com/a/b"),
            ("branch", .str "main"), ("id", .num ⟨1700000000001, by decide⟩),
            ("connected_at", .str "2023-11-14T22:13:20.001Z")])]),
        .json (.arr [.obj [("provider", .str "github"),
          ("repo_url", .str "https://github.com/a/b"), ("branch", .str "main"),
          ("id", .num ⟨1700000000000, by decide⟩), ("connected_at", .str "2023-11-14T22:13:20.000Z"),
          ("status", .str "active")]])) ∧
    getConnection (connectRepo .absent (some (.obj sampleProps)) sampleEnv).2 "1700000000001" =
      .json 404 (errorBody "Connection not found") ∧
    getConnection (connectRepo .absent (some (.obj sampleProps)) sampleEnv).2 "1700000000000" =
      .json 200 (.obj [("connection", .obj [("provider", .str "github"),
          ("repo_url", .str "https://github.com/a/b"), ("branch", .str "main"),
          ("id", .num ⟨1700000000000, by decide⟩), ("connected_at", .str "2023-11-14T22:13:20.000Z"),
          ("status", .str "active")])]) :=
  ⟨rfl, rfl, rfl⟩

/-- C8: a POST that is answered 400 leaves the file as it was. -/
theorem rejected_post_leaves_file (file : FileState) (body : Option JSVal) (env : PostEnv)
    (h : (connectRepo file body env).1.status = 400) :
    (connectRepo file body env).2 = file := by
  rcases connectRepo_cases file body env with ⟨h1, -⟩ | ⟨props, host, url, stored, rfl, hp, hu,
    hhost, hshape, hstored, hw⟩
  · exact h1
  · rw [connectRepo_ok file props env host url stored hp hu hhost hshape hstored hw] at h
    simp [Response.status] at h

theorem rejected_post_leaves_file_witness :
    (connectRepo (connectRepo .absent (some (.obj sampleProps)) sampleEnv).2
        (some (.obj [("provider", .str "github"), ("repo_url", .str "https://gitlab.com/a/b")]))
        sampleEnv).2 =
      (connectRepo .absent (some (.obj sampleProps)) sampleEnv).2 :=
  rejected_post_leaves_file _ _ _ (by decide)

/-- C9: in the list stored after any sequence of requests that starts from a file that is
absent, empty or holds the empty list, every record has a provider that is one of `github`,
`gitlab`, `bitbucket`, a `repo_url` that has the shape of a repository URL whose host name, up
to case, is that provider, and the status `active`. -/
theorem stored_records_are_well_formed (reqs : List Request) (start : FileState)
    (hstart : getConnections start = .arr []) :
    ∃ l, getConnections (runAll start reqs) = .arr l ∧ ∀ c ∈ l, GoodRecord c :=
  runAll_good reqs start [] hstart (by simp)

theorem stored_records_are_well_formed_witness :
    ∃ l, getConnections (runAll .absent
        [.connectRepo (some (.obj sampleProps)) sampleEnv,
          .connectRepo (some (.obj [("provider", .str "gitlab"),
            ("repo_url", .str "https://github.com/a/b")])) sampleEnv,
          .connectRepo (some (.arr [.str "github"])) sampleEnv,
          .getConnection "1700000000000", .health ⟨0, by decide⟩, .other,
          .connectRepo (some (.obj [("provider", .str "gitlab"),
            ("repo_url", .str "HTTP://GitLab.com/a.b/c-d?x"), ("branch", .null)])) sampleEnv]) =
        .arr l ∧ ∀ c ∈ l, GoodRecord c :=
  stored_records_are_well_formed _ .absent rfl

/-- C10: when the validation accepts a provider with a URL, it accepts the same provider with
that URL followed by any text; so `https://github.com/a/b` followed by any text is accepted
with the provider `github`. -/
theorem validation_accepts_any_extension :
    (∀ (p : Option JSVal) (u s : String),
      validate p (some (.str u)) = none → validate p (some (.str (u ++ s))) = none) ∧
    (∀ s : String,
      validate (some (.str "github")) (some (.str ("https://github.com/a/b" ++ s))) = none) := by
  have key : ∀ (host u s : String), host ∈ hosts → StartsWithRepoUrl true host u.toList →
      validate (some (.str host)) (some (.str (u ++ s))) = none := by
    intro host u s hhost hshape
    have hext : StartsWithRepoUrl true host (u ++ s).toList := by
      obtain ⟨scheme, hscheme, s0, h, d, owner, repo, rest, hu, hrest⟩ := hshape
      refine ⟨scheme, hscheme, s0, h, d, owner, repo, rest ++ s.toList, ?_, hrest⟩
      show (u ++ s).data = _
      rw [String.data_append]
      have hu' : u.data = s0 ++ (h ++ (d ++ (owner ++ '/' :: (repo ++ rest)))) := hu
      rw [hu']
      simp [List.append_assoc]
    have hv := validate_of_shape host (u ++ s) host (host_ne_empty host hhost) hhost hext
    rw [if_pos rfl] at hv
    exact hv
  refine ⟨?_, ?_⟩
  · intro p u s h
    obtain ⟨host, url, hhost, rfl, hurl, hshape⟩ := validate_eq_none _ _ h
    simp only [Option.some.injEq, JSVal.str.injEq] at hurl
    subst hurl
    exact key host u s hhost hshape
  · intro s
    exact key "github" "https://github.com/a/b" s (by decide) sample_shape

theorem validation_accepts_any_extension_witness :
    validate (some (.str "github")) (some (.str ("https://github.com/a/b" ++ "?x=<1>#frag"))) =
      none :=
  validation_accepts_any_extension.1 (some (.str "github")) "https://github.com/a/b" "?x=<1>#frag"
    (by rfl)

end Deiverse
